import Mathlib

/-!
Shallow embedding of `pallets/subspace/src/registration.rs` (the subspace
pallet's registration module) and proofs about its specification.

The pallet storage items read and written by the module are collected in one
state record `Chain`.  Machine integers of the source (`u16`, `u64`) are
embedded as `Nat`; where the source's over/underflow behaviour matters
(the wrapping `u64` subtraction `current_block - block_at_registration`,
the wrapping `u16` counter bumps) the wrap is made explicit with `% 2 ^ w`.
The fallible parts (the `unwrap` of the uid lookup inside
`passes_network_connection_requirement`) are embedded in `Option`, `none`
standing for a panic.
-/

namespace Subspace

/-- Maximum value of a `u16`, the source's `u16::MAX`. -/
def U16MAX : Nat := 65535

/-- Wrapping subtraction on `u64` values (embedded as naturals below `2 ^ 64`):
`a.wrapping_sub(b)`, the release-mode meaning of `a - b` in the source. -/
def wrapSub64 (a b : Nat) : Nat :=
  (a % 2 ^ 64 + (2 ^ 64 - b % 2 ^ 64)) % 2 ^ 64

/-- The pallet state visible to `registration.rs`.  Each field is one storage
item (or one external-service view, spec §6): `networksAdded` is the iteration
order of the `NetworksAdded` map; `uids` is the `Uids` map (net, key) → uid;
`keys` the uid → key direction; `keyRegistered` the membership predicate
behind `is_key_registered_on_network`; the rest are the per-network
configuration and counters read by the module. -/
structure Chain where
  networksAdded : List (Nat × Bool)
  subnetExist : Nat → Bool
  registrationsThisBlock : Nat → Nat
  registrationsThisInterval : Nat → Nat
  maxRegistrationsPerBlock : Nat → Nat
  maxAllowedUids : Nat → Nat
  subnetworkN : Nat → Nat
  uids : Nat → Nat → Option Nat
  keys : Nat → Nat → Nat
  keyRegistered : Nat → Nat → Bool
  pruningScore : Nat → Nat → Nat
  blockAtRegistration : Nat → Nat → Nat
  immunityPeriod : Nat → Nat
  currentBlock : Nat
  accountExists : Nat → Bool
  connReqExists : Nat → Nat → Bool
  connReqVal : Nat → Nat → Nat

/-- Neuron `uid` of network `netuid` is inside its immunity period:
`current_block - block_at_registration < immunity_period`
(wrapping `u64` subtraction, as in the source loop of
`get_neuron_to_prune`). -/
def immuneAt (c : Chain) (netuid uid : Nat) : Prop :=
  wrapSub64 c.currentBlock (c.blockAtRegistration netuid uid) <
    c.immunityPeriod netuid

instance (c : Chain) (netuid uid : Nat) : Decidable (immuneAt c netuid uid) :=
  Nat.decLt _ _

/-- Modelled from the spec: `set_pruning_score_for_uid` is the pruning-score
setter of the Uid Registry Store (spec §6); it is called by
`get_neuron_to_prune` but its body is outside the excerpt. -/
def set_pruning_score_for_uid (c : Chain) (netuid uid score : Nat) : Chain :=
  { c with pruningScore := fun n u =>
      if n = netuid ∧ u = uid then score else c.pruningScore n u }

/-- Modelled from the spec: `create_account_if_non_existent` is the idempotent
`ensure_account_exists` collaborator (spec §6): create the caller's account in
the wider ledger if absent.  Its body is outside the excerpt. -/
def create_account_if_non_existent (c : Chain) (key : Nat) : Chain :=
  { c with accountExists := fun k => if k = key then true else c.accountExists k }

/-- Modelled from the spec: `append_neuron` is the store's
`append(net, key) → uid` (spec §3 lifecycle, §6): occupied_count increments,
the new slot sits at uid = old occupied_count, and the membership index and
registration block are set for the new occupant.  Its body is outside the
excerpt. -/
def append_neuron (c : Chain) (netuid key : Nat) : Chain :=
  let n := c.subnetworkN netuid
  { c with
    subnetworkN := fun m => if m = netuid then n + 1 else c.subnetworkN m
    uids := fun m k => if m = netuid ∧ k = key then some n else c.uids m k
    keys := fun m u => if m = netuid ∧ u = n then key else c.keys m u
    keyRegistered := fun m k =>
      if m = netuid ∧ k = key then true else c.keyRegistered m k
    blockAtRegistration := fun m u =>
      if m = netuid ∧ u = n then c.currentBlock else c.blockAtRegistration m u }

/-- Modelled from the spec: `replace_neuron` is the store's
`replace(uid, key, block)` (spec §3 lifecycle, §6): overwrite the slot's
occupant with the new key and registration block, keeping occupied_count and
the pruning score, and keeping the membership index consistent (the old
occupant's entry is dropped).  Its body is outside the excerpt. -/
def replace_neuron (c : Chain) (netuid uid key block : Nat) : Chain :=
  let old_key := c.keys netuid uid
  { c with
    uids := fun m k =>
      if m = netuid ∧ k = key then some uid
      else if m = netuid ∧ k = old_key then none
      else c.uids m k
    keys := fun m u => if m = netuid ∧ u = uid then key else c.keys m u
    keyRegistered := fun m k =>
      if m = netuid ∧ k = key then true
      else if m = netuid ∧ k = old_key then false
      else c.keyRegistered m k
    blockAtRegistration := fun m u =>
      if m = netuid ∧ u = uid then block else c.blockAtRegistration m u }

/-- The two counter bumps of `do_registration` step 14:
`RegistrationsThisInterval` then `RegistrationsThisBlock` are both
incremented (`u16` storage, wrapping at `2 ^ 16`). -/
def bumpRegistrationCounters (c : Chain) (netuid : Nat) : Chain :=
  { c with
    registrationsThisInterval := fun m =>
      if m = netuid then (c.registrationsThisInterval m + 1) % 65536
      else c.registrationsThisInterval m
    registrationsThisBlock := fun m =>
      if m = netuid then (c.registrationsThisBlock m + 1) % 65536
      else c.registrationsThisBlock m }

/-- Loop state of `get_neuron_to_prune`: the four mutable locals of the
source. -/
structure PruneAcc where
  min_score : Nat
  min_score_in_immunity_period : Nat
  uid_with_min_score : Nat
  uid_with_min_score_in_immunity_period : Nat

/-- One iteration of the `get_neuron_to_prune` loop over `neuron_uid_i = i`,
transcribed branch for branch from registration.rs lines 171-201. -/
def pruneStep (c : Chain) (netuid : Nat) (acc : PruneAcc) (i : Nat) : PruneAcc :=
  let pruning_score := c.pruningScore netuid i
  if acc.min_score = pruning_score then
    if immuneAt c netuid i then
      if acc.min_score_in_immunity_period > pruning_score then
        { acc with
          min_score_in_immunity_period := pruning_score
          uid_with_min_score_in_immunity_period := i }
      else acc
    else
      { acc with min_score := pruning_score, uid_with_min_score := i }
  else if acc.min_score > pruning_score then
    if immuneAt c netuid i then
      if acc.min_score_in_immunity_period > pruning_score then
        { acc with
          min_score_in_immunity_period := pruning_score
          uid_with_min_score_in_immunity_period := i }
      else acc
    else
      { acc with min_score := pruning_score, uid_with_min_score := i }
  else acc

/-- Loop state of `get_neuron_to_prune` after the first `k` iterations
(uids `0, 1, ..., k-1` processed), starting from the source's initial values
`min_score = min_score_in_immunity_period = u16::MAX`,
`uid_with_min_score = uid_with_min_score_in_immunity_period = 0`. -/
def pruneAccUpTo (c : Chain) (netuid : Nat) : Nat → PruneAcc
  | 0 => ⟨U16MAX, U16MAX, 0, 0⟩
  | k + 1 => pruneStep c netuid (pruneAccUpTo c netuid k) k

/-- Embedding of `get_neuron_to_prune` (registration.rs lines 165-213):
returns the chosen uid together with the updated chain (the chosen uid's
pruning score is set to `u16::MAX` before returning). -/
def get_neuron_to_prune (c : Chain) (netuid : Nat) : Nat × Chain :=
  if c.subnetworkN netuid = 0 then (0, c)
  else
    let acc := pruneAccUpTo c netuid (c.subnetworkN netuid)
    if acc.min_score = U16MAX then
      (acc.uid_with_min_score_in_immunity_period,
       set_pruning_score_for_uid c netuid
         acc.uid_with_min_score_in_immunity_period U16MAX)
    else
      (acc.uid_with_min_score,
       set_pruning_score_for_uid c netuid acc.uid_with_min_score U16MAX)

/-- Value of the source's `n_better_prunning_scores` counter after scanning
`other_uid = 0, 1, ..., k-1` on network `netuid`: the number of other uids
whose pruning score strictly exceeds `uid_b`'s
(registration.rs lines 137-142). -/
def nBetterCount (c : Chain) (netuid uid_b : Nat) : Nat → Nat
  | 0 => 0
  | k + 1 =>
    let prev := nBetterCount c netuid uid_b k
    if k ≠ uid_b ∧ c.pruningScore netuid k > c.pruningScore netuid uid_b then
      prev + 1
    else prev

/-- Raw fixed-point bits of `I32F32::from_num(x) / I32F32::from_num(y)` for
nonnegative integer operands (`I32F32` is a signed 32.32 fixed-point type;
`from_num` of an integer shifts it left 32 bits and the division truncates
toward zero, hence floor for nonnegative values).  Comparing two `I32F32`
values compares these raw bits. -/
def i32f32RawDiv (x y : Nat) : Nat := x * 2 ^ 32 / y

/-- The percentile comparison of registration.rs lines 146-148: the edge
fails (`return false`) iff `topk_percentile_value > topk_percentile_requirement`
where both sides are `I32F32` truncated divisions. -/
def edgeRankFails (n_better subnet_n req : Nat) : Bool :=
  decide (i32f32RawDiv req U16MAX < i32f32RawDiv n_better subnet_n)

/-- The loop of `passes_network_connection_requirement` over the remaining
entries of the `NetworksAdded` iteration (registration.rs lines 120-150).
`none` stands for the panic of the `unwrap` on line 133; `some b` is a normal
return of `b`. -/
def passesLoop (c : Chain) (netuid_a key : Nat) :
    List (Nat × Bool) → Option Bool
  | [] => some true
  | (netuid_b, exists_b) :: rest =>
    if exists_b ∧ c.connReqExists netuid_a netuid_b then
      if c.subnetworkN netuid_b = 0 then some false
      else if ¬ c.keyRegistered netuid_b key then some false
      else
        match c.uids netuid_b key with
        | none => none
        | some uid_b =>
          if edgeRankFails (nBetterCount c netuid_b uid_b (c.subnetworkN netuid_b))
              (c.subnetworkN netuid_b) (c.connReqVal netuid_a netuid_b) then
            some false
          else passesLoop c netuid_a key rest
    else passesLoop c netuid_a key rest

/-- Embedding of `passes_network_connection_requirement`
(registration.rs lines 118-153). -/
def passes_network_connection_requirement (c : Chain) (netuid_a key : Nat) :
    Option Bool :=
  passesLoop c netuid_a key c.networksAdded

/-- The error taxonomy of `do_registration` (its `ensure!` calls). -/
inductive RegError where
  | NetworkDoesNotExist
  | TooManyRegistrationsThisBlock
  | AlreadyRegistered
  | DidNotPassConnectedNetworkRequirement
deriving DecidableEq

/-- Embedding of `do_registration` (registration.rs lines 48-114).  The origin
check (step 1) resolves to `key`, taken as an argument; the returned `Nat` in
the `ok` case is the `subnetwork_uid` carried by the `NeuronRegistered` event;
the outer `Option` is `none` when the call panics (inside the eligibility
check's `unwrap`).  The state threading follows the source order: the four
`ensure!` validations, then account creation, then the capacity check, then
append-or-evict, then the two counter bumps. -/
def do_registration (c : Chain) (netuid key : Nat) :
    Option (Except RegError Nat × Chain) :=
  if c.subnetExist netuid = true then
    if c.registrationsThisBlock netuid < c.maxRegistrationsPerBlock netuid then
      if (c.uids netuid key).isSome = true then
        some (Except.error RegError.AlreadyRegistered, c)
      else
        match passes_network_connection_requirement c netuid key with
        | none => none
        | some false =>
          some (Except.error RegError.DidNotPassConnectedNetworkRequirement, c)
        | some true =>
          let c1 := create_account_if_non_existent c key
          let current_subnetwork_n := c1.subnetworkN netuid
          if c1.maxAllowedUids netuid = 0 then
            some (Except.error RegError.NetworkDoesNotExist, c1)
          else if current_subnetwork_n < c1.maxAllowedUids netuid then
            some (Except.ok current_subnetwork_n,
              bumpRegistrationCounters (append_neuron c1 netuid key) netuid)
          else
            let pr := get_neuron_to_prune c1 netuid
            some (Except.ok pr.1,
              bumpRegistrationCounters
                (replace_neuron pr.2 netuid pr.1 key c.currentBlock) netuid)
    else some (Except.error RegError.TooManyRegistrationsThisBlock, c)
  else some (Except.error RegError.NetworkDoesNotExist, c)

/-! ### Concrete states used as counterexamples and witnesses -/

/-- A closed chain state with everything empty or zero, customized below. -/
def baseChain : Chain where
  networksAdded := []
  subnetExist := fun _ => false
  registrationsThisBlock := fun _ => 0
  registrationsThisInterval := fun _ => 0
  maxRegistrationsPerBlock := fun _ => 0
  maxAllowedUids := fun _ => 0
  subnetworkN := fun _ => 0
  uids := fun _ _ => none
  keys := fun _ _ => 0
  keyRegistered := fun _ _ => false
  pruningScore := fun _ _ => 0
  blockAtRegistration := fun _ _ => 0
  immunityPeriod := fun _ => 0
  currentBlock := 0
  accountExists := fun _ => false
  connReqExists := fun _ _ => false
  connReqVal := fun _ _ => 0

/-- Network 0 at full capacity 2, both slots non-immune (immunity period 0),
both pruning scores equal to `u16::MAX`. -/
def chainTieAtMax : Chain := { baseChain with
  subnetworkN := fun _ => 2
  maxAllowedUids := fun _ => 2
  pruningScore := fun _ _ => 65535
  currentBlock := 100 }

/-- Network 0 at full capacity 2, both slots non-immune, scores 5 and 3. -/
def chainNonImmune : Chain := { baseChain with
  subnetworkN := fun _ => 2
  maxAllowedUids := fun _ => 2
  pruningScore := fun _ u => if u = 0 then 5 else 3
  currentBlock := 100 }

/-- Network 0 with 2 occupied slots, both immune (registration at the current
block, immunity period 1000), both scores 7. -/
def chainAllImmune : Chain := { baseChain with
  subnetworkN := fun _ => 2
  maxAllowedUids := fun _ => 2
  pruningScore := fun _ _ => 7
  immunityPeriod := fun _ => 1000
  currentBlock := 10 }

/-- Network 0 exists, throttle open, no members, no requirement edges, but
capacity (`max_allowed_uids`) is 0; account 7 does not exist yet. -/
def chainZeroCapacity : Chain := { baseChain with
  subnetExist := fun _ => true
  maxRegistrationsPerBlock := fun _ => 1 }

/-- Network 0 exists with capacity 2 and one occupied slot; key 7 is new. -/
def chainAppendReady : Chain := { baseChain with
  subnetExist := fun _ => true
  maxRegistrationsPerBlock := fun _ => 3
  maxAllowedUids := fun _ => 2
  subnetworkN := fun _ => 1 }

/-- A requirement edge from network 0 to network 1 where network 1 exists but
has zero occupants. -/
def chainEmptyRequired : Chain := { baseChain with
  networksAdded := [(1, true)]
  subnetExist := fun n => n == 0 || n == 1
  maxRegistrationsPerBlock := fun _ => 1
  maxAllowedUids := fun _ => 2
  connReqExists := fun a b => a == 0 && b == 1 }

/-! ### Case analysis of one `get_neuron_to_prune` loop iteration -/

/-- If `i` is not immune and its score is at most the running minimum, the
iteration commits `i` as the non-immune candidate (both the `==` and the `>`
outer branches land in the same update). -/
lemma pruneStep_nonimm_le (c : Chain) (netuid : Nat) (acc : PruneAcc) (i : Nat)
    (h1 : ¬ immuneAt c netuid i)
    (h2 : c.pruningScore netuid i ≤ acc.min_score) :
    pruneStep c netuid acc i =
      { acc with min_score := c.pruningScore netuid i, uid_with_min_score := i } := by
  rcases Nat.eq_or_lt_of_le h2 with heq | hlt
  · simp [pruneStep, heq, h1]
  · simp [pruneStep, hlt.ne', hlt, h1]

/-- If the running minimum is strictly below `i`'s score, the iteration is a
no-op. -/
lemma pruneStep_gt (c : Chain) (netuid : Nat) (acc : PruneAcc) (i : Nat)
    (h2 : acc.min_score < c.pruningScore netuid i) :
    pruneStep c netuid acc i = acc := by
  simp [pruneStep, h2.ne, Nat.not_lt.mpr h2.le]

/-- If `i` is immune, its score is at most the running non-immune minimum and
strictly below the running immune minimum, the iteration commits `i` as the
immune candidate. -/
lemma pruneStep_imm_update (c : Chain) (netuid : Nat) (acc : PruneAcc) (i : Nat)
    (h1 : immuneAt c netuid i)
    (h2 : c.pruningScore netuid i ≤ acc.min_score)
    (h3 : c.pruningScore netuid i < acc.min_score_in_immunity_period) :
    pruneStep c netuid acc i =
      { acc with
        min_score_in_immunity_period := c.pruningScore netuid i
        uid_with_min_score_in_immunity_period := i } := by
  rcases Nat.eq_or_lt_of_le h2 with heq | hlt
  · have h3' : acc.min_score < acc.min_score_in_immunity_period := heq ▸ h3
    simp [pruneStep, heq, h1, h3']
  · simp [pruneStep, hlt.ne', hlt, h1, h3]

/-- If `i` is immune, its score is at most the running non-immune minimum but
not below the running immune minimum, the iteration is a no-op (the immune
update is a strict improvement only). -/
lemma pruneStep_imm_noupdate (c : Chain) (netuid : Nat) (acc : PruneAcc) (i : Nat)
    (h1 : immuneAt c netuid i)
    (h2 : c.pruningScore netuid i ≤ acc.min_score)
    (h3 : acc.min_score_in_immunity_period ≤ c.pruningScore netuid i) :
    pruneStep c netuid acc i = acc := by
  rcases Nat.eq_or_lt_of_le h2 with heq | hlt
  · have h3' : acc.min_score_in_immunity_period ≤ acc.min_score := heq ▸ h3
    simp [pruneStep, heq, h1, Nat.not_lt.mpr h3']
  · simp [pruneStep, hlt.ne', hlt, h1, Nat.not_lt.mpr h3]

/-- Exhaustive description of what one iteration does to the non-immune
tracking pair `(min_score, uid_with_min_score)`. -/
lemma pruneStep_min_cases (c : Chain) (netuid : Nat) (acc : PruneAcc) (i : Nat) :
    ((pruneStep c netuid acc i).min_score = acc.min_score ∧
     (pruneStep c netuid acc i).uid_with_min_score = acc.uid_with_min_score ∧
     (immuneAt c netuid i ∨ acc.min_score < c.pruningScore netuid i))
    ∨ (¬ immuneAt c netuid i ∧
       c.pruningScore netuid i ≤ acc.min_score ∧
       (pruneStep c netuid acc i).min_score = c.pruningScore netuid i ∧
       (pruneStep c netuid acc i).uid_with_min_score = i) := by
  rcases Nat.lt_or_ge acc.min_score (c.pruningScore netuid i) with hgt | hge
  · rw [pruneStep_gt c netuid acc i hgt]
    exact Or.inl ⟨rfl, rfl, Or.inr hgt⟩
  · by_cases himm : immuneAt c netuid i
    · by_cases h3 : c.pruningScore netuid i < acc.min_score_in_immunity_period
      · rw [pruneStep_imm_update c netuid acc i himm hge h3]
        exact Or.inl ⟨rfl, rfl, Or.inl himm⟩
      · rw [pruneStep_imm_noupdate c netuid acc i himm hge (Nat.le_of_not_lt h3)]
        exact Or.inl ⟨rfl, rfl, Or.inl himm⟩
    · rw [pruneStep_nonimm_le c netuid acc i himm hge]
      exact Or.inr ⟨himm, hge, rfl, rfl⟩

/-- Exhaustive description of what one iteration does to the immune tracking
pair `(min_score_in_immunity_period, uid_with_min_score_in_immunity_period)`. -/
lemma pruneStep_imm_cases (c : Chain) (netuid : Nat) (acc : PruneAcc) (i : Nat) :
    ((pruneStep c netuid acc i).min_score_in_immunity_period =
        acc.min_score_in_immunity_period ∧
     (pruneStep c netuid acc i).uid_with_min_score_in_immunity_period =
        acc.uid_with_min_score_in_immunity_period ∧
     (¬ immuneAt c netuid i ∨ acc.min_score < c.pruningScore netuid i ∨
        acc.min_score_in_immunity_period ≤ c.pruningScore netuid i))
    ∨ (immuneAt c netuid i ∧
       c.pruningScore netuid i ≤ acc.min_score ∧
       c.pruningScore netuid i < acc.min_score_in_immunity_period ∧
       (pruneStep c netuid acc i).min_score_in_immunity_period =
         c.pruningScore netuid i ∧
       (pruneStep c netuid acc i).uid_with_min_score_in_immunity_period = i) := by
  rcases Nat.lt_or_ge acc.min_score (c.pruningScore netuid i) with hgt | hge
  · rw [pruneStep_gt c netuid acc i hgt]
    exact Or.inl ⟨rfl, rfl, Or.inr (Or.inl hgt)⟩
  · by_cases himm : immuneAt c netuid i
    · by_cases h3 : c.pruningScore netuid i < acc.min_score_in_immunity_period
      · rw [pruneStep_imm_update c netuid acc i himm hge h3]
        exact Or.inr ⟨himm, hge, h3, rfl, rfl⟩
      · rw [pruneStep_imm_noupdate c netuid acc i himm hge (Nat.le_of_not_lt h3)]
        exact Or.inl ⟨rfl, rfl, Or.inr (Or.inr (Nat.le_of_not_lt h3))⟩
    · rw [pruneStep_nonimm_le c netuid acc i himm hge]
      exact Or.inl ⟨rfl, rfl, Or.inl himm⟩

/-! ### Invariants of the loop state -/

/-- The running non-immune minimum is a lower bound on the scores of the
non-immune uids already scanned. -/
lemma pruneAcc_min_le_nonimm (c : Chain) (netuid : Nat) :
    ∀ k, ∀ i, i < k → ¬ immuneAt c netuid i →
      (pruneAccUpTo c netuid k).min_score ≤ c.pruningScore netuid i := by
  intro k
  induction k with
  | zero => intro i hi; exact absurd hi (Nat.not_lt_zero i)
  | succ k ih =>
    simp only [pruneAccUpTo]
    intro i hi hni
    rcases pruneStep_min_cases c netuid (pruneAccUpTo c netuid k) k with
      ⟨hm, _, hcond⟩ | ⟨_, hle, hm, _⟩
    · rw [hm]
      rcases Nat.lt_succ_iff_lt_or_eq.mp hi with hik | rfl
      · exact ih i hik hni
      · rcases hcond with himm | hlt
        · exact absurd himm hni
        · exact hlt.le
    · rw [hm]
      rcases Nat.lt_succ_iff_lt_or_eq.mp hi with hik | rfl
      · exact le_trans hle (ih i hik hni)
      · exact le_refl _

/-- When the running non-immune minimum is below `u16::MAX`, its recorded uid
is an already scanned non-immune uid realizing it. -/
lemma pruneAcc_min_witness (c : Chain) (netuid : Nat) :
    ∀ k, (pruneAccUpTo c netuid k).min_score < U16MAX →
      (pruneAccUpTo c netuid k).uid_with_min_score < k ∧
      ¬ immuneAt c netuid (pruneAccUpTo c netuid k).uid_with_min_score ∧
      c.pruningScore netuid (pruneAccUpTo c netuid k).uid_with_min_score =
        (pruneAccUpTo c netuid k).min_score := by
  intro k
  induction k with
  | zero => intro h; exact absurd h (Nat.lt_irrefl _)
  | succ k ih =>
    simp only [pruneAccUpTo]
    intro h
    rcases pruneStep_min_cases c netuid (pruneAccUpTo c netuid k) k with
      ⟨hm, hu, _⟩ | ⟨hk, _, hm, hu⟩
    · rw [hm] at h
      rw [hm, hu]
      obtain ⟨h1, h2, h3⟩ := ih h
      exact ⟨Nat.lt_succ_of_lt h1, h2, h3⟩
    · rw [hm, hu]
      exact ⟨Nat.lt_succ_self k, hk, rfl⟩

/-- Among the scanned non-immune uids whose score equals the running
non-immune minimum, the recorded uid is the largest (the later-scanned uid
wins ties). -/
lemma pruneAcc_uid_maximal (c : Chain) (netuid : Nat) :
    ∀ k, ∀ j, j < k → ¬ immuneAt c netuid j →
      c.pruningScore netuid j = (pruneAccUpTo c netuid k).min_score →
      j ≤ (pruneAccUpTo c netuid k).uid_with_min_score := by
  intro k
  induction k with
  | zero => intro j hj; exact absurd hj (Nat.not_lt_zero j)
  | succ k ih =>
    simp only [pruneAccUpTo]
    intro j hj hnj hsc
    rcases pruneStep_min_cases c netuid (pruneAccUpTo c netuid k) k with
      ⟨hm, hu, hcond⟩ | ⟨_, _, _, hu⟩
    · rw [hm] at hsc
      rw [hu]
      rcases Nat.lt_succ_iff_lt_or_eq.mp hj with hjk | rfl
      · exact ih j hjk hnj hsc
      · rcases hcond with himm | hlt
        · exact absurd himm hnj
        · rw [hsc] at hlt
          exact absurd hlt (Nat.lt_irrefl _)
    · rw [hu]
      exact Nat.lt_succ_iff.mp hj

/-- If every scanned uid is immune, the non-immune branch never fires, so
`min_score` keeps its initial value `u16::MAX`. -/
lemma pruneAcc_min_eq_max_of_all_immune (c : Chain) (netuid : Nat) :
    ∀ k, (∀ i, i < k → immuneAt c netuid i) →
      (pruneAccUpTo c netuid k).min_score = U16MAX := by
  intro k
  induction k with
  | zero => intro _; rfl
  | succ k ih =>
    intro him
    simp only [pruneAccUpTo]
    rcases pruneStep_min_cases c netuid (pruneAccUpTo c netuid k) k with
      ⟨hm, _, _⟩ | ⟨hk, _, _, _⟩
    · rw [hm]; exact ih (fun i hi => him i (Nat.lt_succ_of_lt hi))
    · exact absurd (him k (Nat.lt_succ_self k)) hk

/-- The running immune minimum never exceeds `u16::MAX` (scores being `u16`). -/
lemma pruneAcc_minimm_le (c : Chain) (netuid : Nat) :
    ∀ k, (∀ i, i < k → c.pruningScore netuid i ≤ U16MAX) →
      (pruneAccUpTo c netuid k).min_score_in_immunity_period ≤ U16MAX := by
  intro k
  induction k with
  | zero => intro _; exact le_refl _
  | succ k ih =>
    intro hb
    simp only [pruneAccUpTo]
    rcases pruneStep_imm_cases c netuid (pruneAccUpTo c netuid k) k with
      ⟨hm, _, _⟩ | ⟨_, _, _, hm, _⟩
    · rw [hm]; exact ih (fun i hi => hb i (Nat.lt_succ_of_lt hi))
    · rw [hm]; exact hb k (Nat.lt_succ_self k)

/-- All-immune case: the running immune minimum is a lower bound on all
scanned scores. -/
lemma pruneAcc_minimm_le_score_of_all_immune (c : Chain) (netuid : Nat) :
    ∀ k, (∀ i, i < k → immuneAt c netuid i) →
      (∀ i, i < k → c.pruningScore netuid i ≤ U16MAX) →
      ∀ i, i < k →
        (pruneAccUpTo c netuid k).min_score_in_immunity_period ≤
          c.pruningScore netuid i := by
  intro k
  induction k with
  | zero => intro _ _ i hi; exact absurd hi (Nat.not_lt_zero i)
  | succ k ih =>
    intro him hb
    have him' : ∀ i, i < k → immuneAt c netuid i :=
      fun i hi => him i (Nat.lt_succ_of_lt hi)
    have hb' : ∀ i, i < k → c.pruningScore netuid i ≤ U16MAX :=
      fun i hi => hb i (Nat.lt_succ_of_lt hi)
    simp only [pruneAccUpTo]
    intro i hi
    rcases pruneStep_imm_cases c netuid (pruneAccUpTo c netuid k) k with
      ⟨hm, _, hcond⟩ | ⟨_, _, h3, hm, _⟩
    · rw [hm]
      rcases Nat.lt_succ_iff_lt_or_eq.mp hi with hik | rfl
      · exact ih him' hb' i hik
      · rcases hcond with hni | hlt | hle
        · exact absurd (him i (Nat.lt_succ_self i)) hni
        · rw [pruneAcc_min_eq_max_of_all_immune c netuid i him'] at hlt
          exact absurd hlt (Nat.not_lt.mpr (hb i (Nat.lt_succ_self i)))
        · exact hle
    · rw [hm]
      rcases Nat.lt_succ_iff_lt_or_eq.mp hi with hik | rfl
      · exact le_trans h3.le (ih him' hb' i hik)
      · exact le_refl _

/-- If the running immune minimum still equals `u16::MAX`, its recorded uid
was never updated and is still 0. -/
lemma pruneAcc_uidimm_zero_of_max (c : Chain) (netuid : Nat) :
    ∀ k, (∀ i, i < k → c.pruningScore netuid i ≤ U16MAX) →
      (pruneAccUpTo c netuid k).min_score_in_immunity_period = U16MAX →
      (pruneAccUpTo c netuid k).uid_with_min_score_in_immunity_period = 0 := by
  intro k
  induction k with
  | zero => intro _ _; rfl
  | succ k ih =>
    intro hb
    have hb' : ∀ i, i < k → c.pruningScore netuid i ≤ U16MAX :=
      fun i hi => hb i (Nat.lt_succ_of_lt hi)
    simp only [pruneAccUpTo]
    intro hmax
    rcases pruneStep_imm_cases c netuid (pruneAccUpTo c netuid k) k with
      ⟨hm, hu, _⟩ | ⟨_, _, h3, hm, _⟩
    · rw [hm] at hmax
      rw [hu]
      exact ih hb' hmax
    · rw [hm] at hmax
      have := pruneAcc_minimm_le c netuid k hb'
      omega

/-- The recorded immune uid never exceeds the number of scanned uids. -/
lemma pruneAcc_uidimm_le (c : Chain) (netuid : Nat) :
    ∀ k, (pruneAccUpTo c netuid k).uid_with_min_score_in_immunity_period ≤ k := by
  intro k
  induction k with
  | zero => exact le_refl _
  | succ k ih =>
    simp only [pruneAccUpTo]
    rcases pruneStep_imm_cases c netuid (pruneAccUpTo c netuid k) k with
      ⟨_, hu, _⟩ | ⟨_, _, _, _, hu⟩
    · rw [hu]; exact le_trans ih (Nat.le_succ k)
    · rw [hu]; exact Nat.le_succ k

/-- All-immune case: among the scanned uids whose score equals the running
immune minimum, the recorded uid is the smallest (the earlier-scanned uid
wins ties). -/
lemma pruneAcc_uidimm_minimal_of_all_immune (c : Chain) (netuid : Nat) :
    ∀ k, (∀ i, i < k → immuneAt c netuid i) →
      (∀ i, i < k → c.pruningScore netuid i ≤ U16MAX) →
      ∀ j, j < k →
        c.pruningScore netuid j =
          (pruneAccUpTo c netuid k).min_score_in_immunity_period →
        (pruneAccUpTo c netuid k).uid_with_min_score_in_immunity_period ≤ j := by
  intro k
  induction k with
  | zero => intro _ _ j hj; exact absurd hj (Nat.not_lt_zero j)
  | succ k ih =>
    intro him hb
    have him' : ∀ i, i < k → immuneAt c netuid i :=
      fun i hi => him i (Nat.lt_succ_of_lt hi)
    have hb' : ∀ i, i < k → c.pruningScore netuid i ≤ U16MAX :=
      fun i hi => hb i (Nat.lt_succ_of_lt hi)
    simp only [pruneAccUpTo]
    intro j hj hsc
    rcases pruneStep_imm_cases c netuid (pruneAccUpTo c netuid k) k with
      ⟨hm, hu, hcond⟩ | ⟨_, _, h3, hm, hu⟩
    · rw [hm] at hsc
      rw [hu]
      rcases Nat.lt_succ_iff_lt_or_eq.mp hj with hjk | rfl
      · exact ih him' hb' j hjk hsc
      · rcases hcond with hni | hlt | _
        · exact absurd (him j (Nat.lt_succ_self j)) hni
        · rw [pruneAcc_min_eq_max_of_all_immune c netuid j him'] at hlt
          exact absurd hlt (Nat.not_lt.mpr (hb j (Nat.lt_succ_self j)))
        · exact pruneAcc_uidimm_le c netuid j
    · rw [hm] at hsc
      rw [hu]
      rcases Nat.lt_succ_iff_lt_or_eq.mp hj with hjk | rfl
      · have := pruneAcc_minimm_le_score_of_all_immune c netuid k him' hb' j hjk
        omega
      · exact le_refl _

/-- When the running immune minimum is below `u16::MAX`, its recorded uid is
an already scanned immune uid realizing it. -/
lemma pruneAcc_imm_witness (c : Chain) (netuid : Nat) :
    ∀ k, (pruneAccUpTo c netuid k).min_score_in_immunity_period < U16MAX →
      (pruneAccUpTo c netuid k).uid_with_min_score_in_immunity_period < k ∧
      immuneAt c netuid
        (pruneAccUpTo c netuid k).uid_with_min_score_in_immunity_period ∧
      c.pruningScore netuid
          (pruneAccUpTo c netuid k).uid_with_min_score_in_immunity_period =
        (pruneAccUpTo c netuid k).min_score_in_immunity_period := by
  intro k
  induction k with
  | zero => intro h; exact absurd h (Nat.lt_irrefl _)
  | succ k ih =>
    simp only [pruneAccUpTo]
    intro h
    rcases pruneStep_imm_cases c netuid (pruneAccUpTo c netuid k) k with
      ⟨hm, hu, _⟩ | ⟨hk, _, _, hm, hu⟩
    · rw [hm] at h
      rw [hm, hu]
      obtain ⟨h1, h2, h3⟩ := ih h
      exact ⟨Nat.lt_succ_of_lt h1, h2, h3⟩
    · rw [hm, hu]
      exact ⟨Nat.lt_succ_self k, hk, rfl⟩

/-! ### Claim theorems: the eviction selector -/

/-- C1, counterexample.  The claim says: at full capacity with at least one
non-immune slot, the returned uid has the minimum pruning score among
non-immune slots, the highest-indexed one on ties.  In `chainTieAtMax` both
slots of network 0 are non-immune and tie at the minimal non-immune score
(`u16::MAX`), so the claim requires uid 1; the code returns uid 0 (because
`min_score` is initialized to `u16::MAX`, a non-immune slot scoring exactly
`u16::MAX` leaves `min_score = u16::MAX` and the function takes the
all-immune fallback branch, whose candidate was never updated). -/
theorem C1_counterexample :
    chainTieAtMax.subnetworkN 0 = chainTieAtMax.maxAllowedUids 0 ∧
    0 < chainTieAtMax.subnetworkN 0 ∧
    chainTieAtMax.subnetworkN 0 = 2 ∧
    ¬ immuneAt chainTieAtMax 0 0 ∧ ¬ immuneAt chainTieAtMax 0 1 ∧
    chainTieAtMax.pruningScore 0 0 = chainTieAtMax.pruningScore 0 1 ∧
    (get_neuron_to_prune chainTieAtMax 0).1 = 0 := by
  decide

/-- C1 (amended): for every network at full capacity with at least one
non-immune slot whose pruning score is strictly below `u16::MAX`,
`get_neuron_to_prune` returns a non-immune uid whose pruning score is the
minimum pruning score among all non-immune slots, and when several non-immune
slots share that minimum score it returns the highest-indexed such uid. -/
theorem C1_eviction_minimal_nonimmune (c : Chain) (netuid : Nat)
    (hfull : c.subnetworkN netuid = c.maxAllowedUids netuid)
    (hex : ∃ i, i < c.subnetworkN netuid ∧ ¬ immuneAt c netuid i ∧
      c.pruningScore netuid i < U16MAX) :
    (get_neuron_to_prune c netuid).1 < c.subnetworkN netuid ∧
    ¬ immuneAt c netuid (get_neuron_to_prune c netuid).1 ∧
    (∀ i, i < c.subnetworkN netuid → ¬ immuneAt c netuid i →
      c.pruningScore netuid (get_neuron_to_prune c netuid).1 ≤
        c.pruningScore netuid i) ∧
    (∀ i, i < c.subnetworkN netuid → ¬ immuneAt c netuid i →
      c.pruningScore netuid i =
        c.pruningScore netuid (get_neuron_to_prune c netuid).1 →
      i ≤ (get_neuron_to_prune c netuid).1) := by
  obtain ⟨i0, hi0, hni0, hsc0⟩ := hex
  have hn0 : c.subnetworkN netuid ≠ 0 := by omega
  have hminlt : (pruneAccUpTo c netuid (c.subnetworkN netuid)).min_score < U16MAX :=
    lt_of_le_of_lt (pruneAcc_min_le_nonimm c netuid _ i0 hi0 hni0) hsc0
  have hfst : (get_neuron_to_prune c netuid).1 =
      (pruneAccUpTo c netuid (c.subnetworkN netuid)).uid_with_min_score := by
    simp [get_neuron_to_prune, hn0, Nat.ne_of_lt hminlt]
  obtain ⟨hu1, hu2, hu3⟩ := pruneAcc_min_witness c netuid _ hminlt
  rw [hfst]
  refine ⟨hu1, hu2, ?_, ?_⟩
  · intro i hi hni
    rw [hu3]
    exact pruneAcc_min_le_nonimm c netuid _ i hi hni
  · intro i hi hni hsc
    exact pruneAcc_uid_maximal c netuid _ i hi hni (by rw [hsc, hu3])

/-- C1, witness of the amended theorem at `chainNonImmune` (full capacity,
non-immune scores 5 and 3, so uid 1 must be picked). -/
theorem C1_witness :
    (get_neuron_to_prune chainNonImmune 0).1 = 1 ∧
    ¬ immuneAt chainNonImmune 0 (get_neuron_to_prune chainNonImmune 0).1 := by
  refine ⟨by decide, ?_⟩
  exact (C1_eviction_minimal_nonimmune chainNonImmune 0 (by decide)
    ⟨1, by decide, by decide, by decide⟩).2.1

/-- C2: for every network with at least one occupied slot in which every slot
is immune, `get_neuron_to_prune` returns a uid whose pruning score is the
minimum among all slots, the lowest-indexed such uid on ties. -/
theorem C2_all_immune_eviction (c : Chain) (netuid : Nat)
    (h0 : 0 < c.subnetworkN netuid)
    (hb : ∀ i, i < c.subnetworkN netuid → c.pruningScore netuid i ≤ U16MAX)
    (him : ∀ i, i < c.subnetworkN netuid → immuneAt c netuid i) :
    (get_neuron_to_prune c netuid).1 < c.subnetworkN netuid ∧
    (∀ i, i < c.subnetworkN netuid →
      c.pruningScore netuid (get_neuron_to_prune c netuid).1 ≤
        c.pruningScore netuid i) ∧
    (∀ i, i < c.subnetworkN netuid →
      c.pruningScore netuid i =
        c.pruningScore netuid (get_neuron_to_prune c netuid).1 →
      (get_neuron_to_prune c netuid).1 ≤ i) := by
  have hmax : (pruneAccUpTo c netuid (c.subnetworkN netuid)).min_score = U16MAX :=
    pruneAcc_min_eq_max_of_all_immune c netuid _ him
  have hfst : (get_neuron_to_prune c netuid).1 =
      (pruneAccUpTo c netuid
        (c.subnetworkN netuid)).uid_with_min_score_in_immunity_period := by
    simp [get_neuron_to_prune, Nat.pos_iff_ne_zero.mp h0, hmax]
  rw [hfst]
  by_cases hmm : (pruneAccUpTo c netuid
      (c.subnetworkN netuid)).min_score_in_immunity_period = U16MAX
  · rw [pruneAcc_uidimm_zero_of_max c netuid _ hb hmm]
    refine ⟨h0, ?_, fun i _ _ => Nat.zero_le i⟩
    intro i hi
    have h1 := pruneAcc_minimm_le_score_of_all_immune c netuid _ him hb i hi
    rw [hmm] at h1
    have h2 : c.pruningScore netuid 0 ≤ U16MAX := hb 0 h0
    omega
  · have hlt : (pruneAccUpTo c netuid
        (c.subnetworkN netuid)).min_score_in_immunity_period < U16MAX :=
      Nat.lt_of_le_of_ne (pruneAcc_minimm_le c netuid _ hb) hmm
    obtain ⟨hu1, _, hu3⟩ := pruneAcc_imm_witness c netuid _ hlt
    refine ⟨hu1, ?_, ?_⟩
    · intro i hi
      rw [hu3]
      exact pruneAcc_minimm_le_score_of_all_immune c netuid _ him hb i hi
    · intro i hi hsc
      exact pruneAcc_uidimm_minimal_of_all_immune c netuid _ him hb i hi
        (by rw [hsc, hu3])

/-- C2, witness at `chainAllImmune` (both slots immune, scores tie at 7, so
the lowest-indexed uid 0 must be picked). -/
theorem C2_witness :
    (get_neuron_to_prune chainAllImmune 0).1 = 0 ∧
    (get_neuron_to_prune chainAllImmune 0).1 < chainAllImmune.subnetworkN 0 := by
  refine ⟨by decide, ?_⟩
  exact (C2_all_immune_eviction chainAllImmune 0 (by decide)
    (fun i _ => (by decide : (7 : Nat) ≤ 65535))
    (fun i _ => (by decide : wrapSub64 10 0 < 1000))).1

/-- C5: for every network with at least one occupied slot, the pruning score
of the uid returned by `get_neuron_to_prune` equals `u16::MAX` in the state
the selector itself returns (before any replace of the slot's occupant). -/
theorem C5_post_selection_marker (c : Chain) (netuid : Nat)
    (h0 : 0 < c.subnetworkN netuid) :
    ((get_neuron_to_prune c netuid).2).pruningScore netuid
      (get_neuron_to_prune c netuid).1 = U16MAX := by
  have hn0 : c.subnetworkN netuid ≠ 0 := Nat.pos_iff_ne_zero.mp h0
  by_cases h : (pruneAccUpTo c netuid (c.subnetworkN netuid)).min_score = U16MAX
  · simp [get_neuron_to_prune, hn0, h, set_pruning_score_for_uid]
  · simp [get_neuron_to_prune, hn0, h, set_pruning_score_for_uid]

/-- C5, witness at `chainAllImmune`. -/
theorem C5_witness :
    ((get_neuron_to_prune chainAllImmune 0).2).pruningScore 0
      (get_neuron_to_prune chainAllImmune 0).1 = U16MAX :=
  C5_post_selection_marker chainAllImmune 0 (by decide)

/-! ### Claim theorems: the eligibility evaluator -/

/-- C6: in the percentile comparison of the eligibility check, with
`0 < occupied_count(B) ≤ u16::MAX`, the edge fails exactly when the rank
fraction `n_better / occupied_count(B)` is strictly greater than the
threshold `percentile_threshold / u16::MAX` as exact rationals: equality
passes (the boundary is inclusive on the pass side), and any strict excess
fails, for every value of `n_better`, `occupied_count(B)` and
`percentile_threshold` — the `I32F32` truncation cannot hide the gap because
`occ * u16::MAX < 2 ^ 32`. -/
theorem C6_threshold_boundary (n_better occ req : Nat)
    (h1 : 0 < occ) (h2 : occ ≤ U16MAX) :
    edgeRankFails n_better occ req = true ↔ req * occ < n_better * U16MAX := by
  have hD : 0 < U16MAX := by decide
  simp only [edgeRankFails, decide_eq_true_eq, i32f32RawDiv]
  constructor
  · intro h
    by_contra hle
    push_neg at hle
    have hq : n_better * 2 ^ 32 / occ ≤ req * 2 ^ 32 / U16MAX := by
      rw [Nat.le_div_iff_mul_le hD]
      have step1 : n_better * 2 ^ 32 / occ * U16MAX * occ ≤ req * 2 ^ 32 * occ := by
        calc n_better * 2 ^ 32 / occ * U16MAX * occ
            = n_better * 2 ^ 32 / occ * occ * U16MAX := by ring
          _ ≤ n_better * 2 ^ 32 * U16MAX :=
              Nat.mul_le_mul_right _ (Nat.div_mul_le_self _ _)
          _ = n_better * U16MAX * 2 ^ 32 := by ring
          _ ≤ req * occ * 2 ^ 32 := Nat.mul_le_mul_right _ hle
          _ = req * 2 ^ 32 * occ := by ring
      exact Nat.le_of_mul_le_mul_right step1 h1
    exact absurd h (Nat.not_lt.mpr hq)
  · intro h
    have hocc : occ * U16MAX < 2 ^ 32 := by
      have hm : occ * U16MAX ≤ U16MAX * U16MAX := Nat.mul_le_mul_right _ h2
      have h65 : U16MAX * U16MAX < 2 ^ 32 := by decide
      omega
    have hstep : req * 2 ^ 32 / U16MAX + 1 ≤ n_better * 2 ^ 32 / occ := by
      rw [Nat.le_div_iff_mul_le h1]
      have key : (req * 2 ^ 32 / U16MAX + 1) * occ * U16MAX ≤
          n_better * 2 ^ 32 * U16MAX := by
        have hqd : req * 2 ^ 32 / U16MAX * U16MAX ≤ req * 2 ^ 32 :=
          Nat.div_mul_le_self _ _
        calc (req * 2 ^ 32 / U16MAX + 1) * occ * U16MAX
            = req * 2 ^ 32 / U16MAX * U16MAX * occ + occ * U16MAX := by ring
          _ ≤ req * 2 ^ 32 * occ + occ * U16MAX :=
              Nat.add_le_add_right (Nat.mul_le_mul_right _ hqd) _
          _ ≤ req * occ * 2 ^ 32 + 2 ^ 32 := by
              have hco : req * 2 ^ 32 * occ = req * occ * 2 ^ 32 := by ring
              omega
          _ = (req * occ + 1) * 2 ^ 32 := by ring
          _ ≤ n_better * U16MAX * 2 ^ 32 := Nat.mul_le_mul_right _ h
          _ = n_better * 2 ^ 32 * U16MAX := by ring
      exact Nat.le_of_mul_le_mul_right key hD
    omega

/-- C6, witness at `n_better = 1`, `occ = 2`, `req = 1`. -/
theorem C6_witness :
    0 < 2 ∧ 2 ≤ U16MAX ∧ (edgeRankFails 1 2 1 = true ↔ 1 * 2 < 1 * U16MAX) :=
  ⟨by decide, by decide, C6_threshold_boundary 1 2 1 (by decide) (by decide)⟩

/-- Under the membership-index consistency invariant, the eligibility loop
never reaches the `unwrap` panic: it returns `some` verdict on every suffix
of the network list. -/
lemma passesLoop_isSome (c : Chain) (netuid_a key : Nat)
    (hinv : ∀ b k, c.keyRegistered b k = true → (c.uids b k).isSome = true) :
    ∀ l, (passesLoop c netuid_a key l).isSome = true := by
  intro l
  induction l with
  | nil => rfl
  | cons hd tl ih =>
    obtain ⟨b, ex⟩ := hd
    simp only [passesLoop]
    split
    · split
      · rfl
      · split
        · rfl
        · rename_i hnn
          have hreg : c.keyRegistered b key = true := by
            by_contra hh
            exact hnn (by simpa using hh)
          have hsome := hinv b key hreg
          cases huid : c.uids b key with
          | none => rw [huid] at hsome; exact absurd hsome (by simp)
          | some uid_b =>
            dsimp only
            split
            · rfl
            · exact ih
    · exact ih

/-- Under the membership-index consistency invariant, if some listed network
`b` with an existing entry carries a requirement edge from `netuid_a` and has
zero occupants, the eligibility loop returns `some false` on every list
containing it. -/
lemma passesLoop_empty_required (c : Chain) (netuid_a key b : Nat)
    (hinv : ∀ b' k', c.keyRegistered b' k' = true → (c.uids b' k').isSome = true)
    (hreq : c.connReqExists netuid_a b = true)
    (hzero : c.subnetworkN b = 0) :
    ∀ l, (b, true) ∈ l → passesLoop c netuid_a key l = some false := by
  intro l
  induction l with
  | nil => intro hm; exact absurd hm (List.not_mem_nil _)
  | cons hd tl ih =>
    obtain ⟨b', ex'⟩ := hd
    intro hm
    rcases List.mem_cons.mp hm with heq | hm'
    · injection heq with hb hx
      subst hb
      subst hx
      simp [passesLoop, hreq, hzero]
    · simp only [passesLoop]
      split
      · split
        · rfl
        · split
          · rfl
          · rename_i hnn
            have hreg : c.keyRegistered b' key = true := by
              by_contra hh
              exact hnn (by simpa using hh)
            have hsome := hinv b' key hreg
            cases huid : c.uids b' key with
            | none => rw [huid] at hsome; exact absurd hsome (by simp)
            | some uid_b =>
              dsimp only
              split
              · rfl
              · exact ih hm'
      · exact ih hm'

/-- C7: under the membership-index consistency invariant, if any network `b`
listed as existing carries a configured requirement edge from `netuid_a` and
has zero occupants, `passes_network_connection_requirement` returns `false`
regardless of the key's standing on any other required network. -/
theorem C7_empty_required_network (c : Chain) (netuid_a key b : Nat)
    (hinv : ∀ b' k', c.keyRegistered b' k' = true → (c.uids b' k').isSome = true)
    (hmem : (b, true) ∈ c.networksAdded)
    (hreq : c.connReqExists netuid_a b = true)
    (hzero : c.subnetworkN b = 0) :
    passes_network_connection_requirement c netuid_a key = some false :=
  passesLoop_empty_required c netuid_a key b hinv hreq hzero c.networksAdded hmem

/-- C7, witness at `chainEmptyRequired` (edge 0 → 1 configured, network 1
listed and empty). -/
theorem C7_witness :
    passes_network_connection_requirement chainEmptyRequired 0 7 = some false :=
  C7_empty_required_network chainEmptyRequired 0 7 1
    (fun _ _ h => nomatch h) (by decide) (by decide) (by decide)

/-- C10: under the membership-index consistency invariant
(`is_key_registered_on_network(net, key) = true` implies the key→uid lookup
returns `Some`), the `unwrap` in `passes_network_connection_requirement` is
never reached with `None`: the function is total and always returns a
boolean. -/
theorem C10_no_unwrap_panic (c : Chain) (netuid_a key : Nat)
    (hinv : ∀ b k, c.keyRegistered b k = true → (c.uids b k).isSome = true) :
    (passes_network_connection_requirement c netuid_a key).isSome = true :=
  passesLoop_isSome c netuid_a key hinv c.networksAdded

/-- C10, witness at `chainEmptyRequired`. -/
theorem C10_witness :
    (passes_network_connection_requirement chainEmptyRequired 0 7).isSome = true :=
  C10_no_unwrap_panic chainEmptyRequired 0 7 (fun _ _ h => nomatch h)

/-! ### Claim theorems: the registration orchestrator -/

/-- Every aborting run of `do_registration` returns either the untouched
input state or, exactly on the capacity-0 abort (after the network-existence,
throttle, membership and eligibility checks all passed), the input state with
only the account created. -/
lemma do_registration_error_state (c : Chain) (netuid key : Nat)
    (r : RegError) (c' : Chain)
    (h : do_registration c netuid key = some (Except.error r, c')) :
    c' = c ∨
    (r = RegError.NetworkDoesNotExist ∧ c.subnetExist netuid = true ∧
     c.registrationsThisBlock netuid < c.maxRegistrationsPerBlock netuid ∧
     (c.uids netuid key).isSome = false ∧
     passes_network_connection_requirement c netuid key = some true ∧
     c.maxAllowedUids netuid = 0 ∧
     c' = create_account_if_non_existent c key) := by
  unfold do_registration at h
  split at h
  · rename_i hex
    split at h
    · rename_i hth
      split at h
      · simp only [Option.some.injEq, Prod.mk.injEq, Except.error.injEq] at h
        exact Or.inl h.2.symm
      · rename_i hreg
        split at h
        · exact Option.noConfusion h
        · simp only [Option.some.injEq, Prod.mk.injEq, Except.error.injEq] at h
          exact Or.inl h.2.symm
        · rename_i hpass
          dsimp only at h
          split at h
          · rename_i h0
            simp only [Option.some.injEq, Prod.mk.injEq, Except.error.injEq] at h
            refine Or.inr ⟨h.1.symm, hex, hth, by simpa using hreg, hpass, h0, h.2.symm⟩
          · split at h
            · simp only [Option.some.injEq, Prod.mk.injEq] at h
              exact absurd h.1 (fun hh => Except.noConfusion hh)
            · simp only [Option.some.injEq, Prod.mk.injEq] at h
              exact absurd h.1 (fun hh => Except.noConfusion hh)
    · simp only [Option.some.injEq, Prod.mk.injEq, Except.error.injEq] at h
      exact Or.inl h.2.symm
  · simp only [Option.some.injEq, Prod.mk.injEq, Except.error.injEq] at h
    exact Or.inl h.2.symm

/-- C3, counterexample.  The claim says no state-mutating write of any kind —
including account creation — occurs before the slot-assignment step, i.e.
only after all validation checks (capacity ≠ 0 included) have passed.  In
`chainZeroCapacity` the capacity check fails, so slot assignment is never
reached, yet the aborted call has already created account 7: account creation
(line 75) precedes the capacity check (line 83). -/
theorem C3_counterexample :
    do_registration chainZeroCapacity 0 7 =
      some (Except.error RegError.NetworkDoesNotExist,
        create_account_if_non_existent chainZeroCapacity 7) ∧
    chainZeroCapacity.accountExists 7 = false ∧
    (create_account_if_non_existent chainZeroCapacity 7).accountExists 7 = true :=
  ⟨rfl, rfl, rfl⟩

/-- C3 (amended): in `do_registration`, no registry-state write occurs before
the slot-assignment step, and the only write of any kind before it is the
idempotent account creation, which happens after the network-existence,
throttle, membership and eligibility checks have passed but before the
capacity ≠ 0 check: every aborted call leaves all registry components
untouched, and leaves the whole state untouched except that the capacity-0
abort (reached only with the four earlier checks passed) has created the
caller's account. -/
theorem C3_no_write_before_slot_assignment (c : Chain) (netuid key : Nat)
    (r : RegError) (c' : Chain)
    (h : do_registration c netuid key = some (Except.error r, c')) :
    (c'.subnetworkN = c.subnetworkN ∧ c'.uids = c.uids ∧ c'.keys = c.keys ∧
     c'.keyRegistered = c.keyRegistered ∧ c'.pruningScore = c.pruningScore ∧
     c'.blockAtRegistration = c.blockAtRegistration ∧
     c'.registrationsThisBlock = c.registrationsThisBlock ∧
     c'.registrationsThisInterval = c.registrationsThisInterval) ∧
    (c' = c ∨
     (r = RegError.NetworkDoesNotExist ∧ c.subnetExist netuid = true ∧
      c.registrationsThisBlock netuid < c.maxRegistrationsPerBlock netuid ∧
      (c.uids netuid key).isSome = false ∧
      passes_network_connection_requirement c netuid key = some true ∧
      c.maxAllowedUids netuid = 0 ∧
      c' = create_account_if_non_existent c key)) := by
  rcases do_registration_error_state c netuid key r c' h with rfl | hcase
  · exact ⟨⟨rfl, rfl, rfl, rfl, rfl, rfl, rfl, rfl⟩, Or.inl rfl⟩
  · obtain ⟨h1, h2, h3, h4, h5, h6, h7⟩ := hcase
    subst h7
    exact ⟨⟨rfl, rfl, rfl, rfl, rfl, rfl, rfl, rfl⟩,
      Or.inr ⟨h1, h2, h3, h4, h5, h6, rfl⟩⟩

/-- C3, witness of the amended theorem at an abort on a missing network. -/
theorem C3_witness :
    ∃ c', do_registration baseChain 0 7 =
        some (Except.error RegError.NetworkDoesNotExist, c') ∧
      c'.uids = baseChain.uids :=
  ⟨baseChain, rfl,
    (C3_no_write_before_slot_assignment baseChain 0 7 _ _ rfl).1.2.1⟩

/-- C4: for every abort of `do_registration`, the registry state —
occupied count, the uid/key slot tables and pruning scores, and the
`RegistrationsThisBlock` and `RegistrationsThisInterval` counters — after the
aborted call equals the state before the call. -/
theorem C4_atomic_abort (c : Chain) (netuid key : Nat)
    (r : RegError) (c' : Chain)
    (h : do_registration c netuid key = some (Except.error r, c')) :
    c'.subnetworkN = c.subnetworkN ∧ c'.uids = c.uids ∧ c'.keys = c.keys ∧
    c'.pruningScore = c.pruningScore ∧
    c'.registrationsThisBlock = c.registrationsThisBlock ∧
    c'.registrationsThisInterval = c.registrationsThisInterval := by
  rcases do_registration_error_state c netuid key r c' h with rfl | hcase
  · exact ⟨rfl, rfl, rfl, rfl, rfl, rfl⟩
  · obtain ⟨_, _, _, _, _, _, h7⟩ := hcase
    subst h7
    exact ⟨rfl, rfl, rfl, rfl, rfl, rfl⟩

/-- C4, witness at the capacity-0 abort on `chainZeroCapacity`. -/
theorem C4_witness :
    ∃ c', do_registration chainZeroCapacity 0 7 =
        some (Except.error RegError.NetworkDoesNotExist, c') ∧
      c'.subnetworkN = chainZeroCapacity.subnetworkN :=
  ⟨create_account_if_non_existent chainZeroCapacity 7, rfl,
    (C4_atomic_abort chainZeroCapacity 0 7 _ _ rfl).1⟩

/-- C8: for every network whose occupied count is strictly below its
capacity, a successful `do_registration` assigns the new key the uid equal to
the occupied count observed before the call (append, no eviction), and the
occupied count after the call is that value plus one. -/
theorem C8_append_assigns_next_uid (c : Chain) (netuid key uid : Nat) (c' : Chain)
    (hcap : c.subnetworkN netuid < c.maxAllowedUids netuid)
    (h : do_registration c netuid key = some (Except.ok uid, c')) :
    uid = c.subnetworkN netuid ∧
    c'.subnetworkN netuid = c.subnetworkN netuid + 1 := by
  unfold do_registration at h
  split at h
  · split at h
    · split at h
      · simp only [Option.some.injEq, Prod.mk.injEq] at h
        exact absurd h.1 (fun hh => Except.noConfusion hh)
      · split at h
        · exact Option.noConfusion h
        · simp only [Option.some.injEq, Prod.mk.injEq] at h
          exact absurd h.1 (fun hh => Except.noConfusion hh)
        · dsimp only at h
          split at h
          · simp only [Option.some.injEq, Prod.mk.injEq] at h
            exact absurd h.1 (fun hh => Except.noConfusion hh)
          · split at h
            · simp only [Option.some.injEq, Prod.mk.injEq, Except.ok.injEq] at h
              obtain ⟨hu, hc⟩ := h
              subst hc
              refine ⟨hu.symm, ?_⟩
              simp [bumpRegistrationCounters, append_neuron,
                create_account_if_non_existent]
            · rename_i hge
              exact absurd hcap hge
    · simp only [Option.some.injEq, Prod.mk.injEq] at h
      exact absurd h.1 (fun hh => Except.noConfusion hh)
  · simp only [Option.some.injEq, Prod.mk.injEq] at h
    exact absurd h.1 (fun hh => Except.noConfusion hh)

/-- C8, witness at `chainAppendReady` (capacity 2, one occupied slot: key 7
gets uid 1 and the count becomes 2). -/
theorem C8_witness :
    chainAppendReady.subnetworkN 0 < chainAppendReady.maxAllowedUids 0 ∧
    ∃ c', do_registration chainAppendReady 0 7 = some (Except.ok 1, c') ∧
      1 = chainAppendReady.subnetworkN 0 ∧
      c'.subnetworkN 0 = chainAppendReady.subnetworkN 0 + 1 := by
  refine ⟨by decide, ⟨_, rfl, ?_⟩⟩
  exact C8_append_assigns_next_uid chainAppendReady 0 7 1 _ (by decide) rfl

/-- C9: `do_registration` aborts with `NetworkDoesNotExist` exactly when the
target network does not exist (checked first), or when it exists but its
capacity is 0, checked only after the throttle, already-registered and
eligibility checks have all passed. -/
theorem C9_network_missing_iff (c : Chain) (netuid key : Nat) :
    (∃ c', do_registration c netuid key =
        some (Except.error RegError.NetworkDoesNotExist, c')) ↔
    (c.subnetExist netuid = false ∨
     (c.subnetExist netuid = true ∧
      c.registrationsThisBlock netuid < c.maxRegistrationsPerBlock netuid ∧
      (c.uids netuid key).isSome = false ∧
      passes_network_connection_requirement c netuid key = some true ∧
      c.maxAllowedUids netuid = 0)) := by
  constructor
  · rintro ⟨c', h⟩
    unfold do_registration at h
    split at h
    · rename_i hex
      split at h
      · rename_i hth
        split at h
        · simp only [Option.some.injEq, Prod.mk.injEq, Except.error.injEq] at h
          exact absurd h.1 (fun hh => RegError.noConfusion hh)
        · rename_i hreg
          split at h
          · exact Option.noConfusion h
          · simp only [Option.some.injEq, Prod.mk.injEq, Except.error.injEq] at h
            exact absurd h.1 (fun hh => RegError.noConfusion hh)
          · rename_i hpass
            dsimp only at h
            split at h
            · rename_i h0
              exact Or.inr ⟨hex, hth, by simpa using hreg, hpass, h0⟩
            · split at h
              · simp only [Option.some.injEq, Prod.mk.injEq] at h
                exact absurd h.1 (fun hh => Except.noConfusion hh)
              · simp only [Option.some.injEq, Prod.mk.injEq] at h
                exact absurd h.1 (fun hh => Except.noConfusion hh)
      · simp only [Option.some.injEq, Prod.mk.injEq, Except.error.injEq] at h
        exact absurd h.1 (fun hh => RegError.noConfusion hh)
    · rename_i hex
      exact Or.inl (by simpa using hex)
  · rintro (hfalse | ⟨hex, hth, hreg, hpass, h0⟩)
    · exact ⟨c, by unfold do_registration; simp [hfalse]⟩
    · exact ⟨create_account_if_non_existent c key, by
        unfold do_registration
        simp [hex, hth, hreg, hpass, h0, create_account_if_non_existent]⟩

/-- C9, witness: on `baseChain` network 0 does not exist, so the abort reason
is `NetworkDoesNotExist`. -/
theorem C9_witness :
    ∃ c', do_registration baseChain 0 7 =
      some (Except.error RegError.NetworkDoesNotExist, c') :=
  (C9_network_missing_iff baseChain 0 7).mpr (Or.inl rfl)

end Subspace
